import Mathlib

/-!
# Verification of the portable-tool provisioning pipeline

A shallow embedding of `src/utils/tool_downloader.py`: the tool catalog
(`TOOL_VERSIONS`), the fetcher (`download_file`), the archive extractor
(`extract_archive`), the per-tool layout normalizers (`organize_ffmpeg`,
`organize_pandoc`, `organize_libreoffice`), the version ledger
(`get_installed_version`, `check_for_updates`) and the orchestrator
(`download_and_setup_tool`).

File-system, network and subprocess effects are made explicit: the pipeline
threads a state (`St`) holding the temp directory, the scratch extraction
directory, the per-tool install directory and instrumentation logs (network
request count, sleep delays, progress-callback invocations); the environment
(`Env`) supplies the outside world (platform string, scripted network
outcomes, the contents that extracting the artifact would produce, and the
results of delegating to external installers).
-/

namespace ToolDownloader

/-! ## Character-list string helpers

Python string operations (`.lower()`, `.endswith`, `in`, `pathlib.Path.suffix`)
are modelled over `List Char` so that their interaction can be reasoned about
with plain list lemmas. -/

/-- Python `s.lower()` on the character list. -/
def lowerL (l : List Char) : List Char := l.map Char.toLower

/-- Python `s.endswith(suf)`: the reversed suffix is a prefix of the reversed string. -/
def endsL (l suf : List Char) : Bool := suf.reverse.isPrefixOf l.reverse

/-- Python `sub in l` substring test. -/
def containsL (sub : List Char) : List Char → Bool
  | [] => sub.isPrefixOf []
  | c :: t => sub.isPrefixOf (c :: t) || containsL sub t

/-- Python `s.split(sep)` for a one-character separator: adjacent separators
and boundary separators yield empty segments, and the empty string splits to
one empty segment. -/
def splitOnCharL (sep : Char) : List Char → List (List Char)
  | [] => [[]]
  | c :: t =>
    if c = sep then [] :: splitOnCharL sep t
    else
      match splitOnCharL sep t with
      | [] => [[c]]
      | h :: r => (c :: h) :: r

/-- Characters from the last `'.'` of the list onward (dot included);
`none` when the list has no dot. Helper for `pySuffixL`. -/
def lastDotSeg : List Char → Option (List Char)
  | [] => none
  | c :: cs =>
    match lastDotSeg cs with
    | some s => some s
    | none => if c = '.' then some (c :: cs) else none

/-- Computes `pathlib.Path(name).suffix` on the characters of the name: the
segment from the last dot, provided that dot is neither the first character nor the last. -/
def pySuffixL (name : List Char) : List Char :=
  match name with
  | [] => []
  | _ :: rest =>
    match lastDotSeg rest with
    | some (c :: cs) => if cs.isEmpty then [] else c :: cs
    | _ => []

/-! ## Version ledger: `get_installed_version` (lines 713-734)

`version.json` for a tool is modelled by the observations the function can
make of it: absent, unreadable/not-JSON (`open`/`json.load` raises), parsed
but not a JSON object (`data.get` raises `AttributeError`), or an object
whose `"version"` entry is a string or missing/null. -/

inductive VersionFile where
  | absent
  | unreadable
  | notDict
  | dict (version : Option String)
deriving DecidableEq

/-- Exceptions that the body of the `try` block in `get_installed_version`
can raise. -/
inductive PyErr where
  | jsonError
  | attrError
deriving DecidableEq

/-- The check `version_file.exists()`. -/
def fileExists : VersionFile → Bool
  | .absent => false
  | _ => true

/-- The `try`-block body: `open` + `json.load(f)` + `data.get("version")`,
with each possible exception made explicit. -/
def loadVersionData : VersionFile → Except PyErr (Option String)
  | .absent => .error .jsonError
  | .unreadable => .error .jsonError
  | .notDict => .error .attrError
  | .dict v => .ok v

/-- Model of `get_installed_version` (lines 713-734): existence check, then the `try`
block whose exceptions are swallowed by `except Exception: pass`, falling
through to `return None`. The `Except` result records whether an exception
escapes to the caller. -/
def get_installed_version (f : VersionFile) : Except PyErr (Option String) :=
  if fileExists f then
    match loadVersionData f with
    | .ok v => .ok v
    | .error _ => .ok none
  else
    .ok none

/-- The value `get_installed_version` hands to its callers. -/
def getInstalledVersionVal (f : VersionFile) : Option String :=
  match get_installed_version f with
  | .ok v => v
  | .error _ => none

/-! ## Catalog: `TOOL_VERSIONS` (lines 16-36) -/

structure ToolEntry where
  name : String
  version : String
  urls : List (String × String)
deriving DecidableEq

/-- The `TOOL_VERSIONS` dictionary (lines 16-36), verbatim. -/
def TOOL_VERSIONS : List ToolEntry :=
  [ { name := "ffmpeg", version := "7.0.2",
      urls :=
        [ ("windows", "https://github.com/BtbN/FFmpeg-Builds/releases/download/latest/ffmpeg-master-latest-win64-gpl.zip"),
          ("darwin", "https://evermeet.cx/ffmpeg/ffmpeg-7.0.2.zip"),
          ("linux", "https://johnvansickle.com/ffmpeg/releases/ffmpeg-release-amd64-static.tar.xz") ] },
    { name := "pandoc", version := "3.6.3",
      urls :=
        [ ("windows", "https://github.com/jgm/pandoc/releases/download/3.6.3/pandoc-3.6.3-windows-x86_64.zip"),
          ("darwin", "https://github.com/jgm/pandoc/releases/download/3.6.3/pandoc-3.6.3-macOS.zip"),
          ("linux", "https://github.com/jgm/pandoc/releases/download/3.6.3/pandoc-3.6.3-linux-amd64.tar.gz") ] },
    { name := "libreoffice", version := "25.2.1",
      urls :=
        [ ("windows", "https://sourceforge.net/projects/portableapps/files/LibreOffice%20Portable/LibreOfficePortableLegacy75_7.5.9_MultilingualStandard.paf.exe/download"),
          ("darwin", "https://www.libreoffice.org/donate/dl/mac-x86_64/25.2.1/en-US/LibreOffice_25.2.1_MacOS_x86-64.dmg"),
          ("linux", "https://www.libreoffice.org/donate/dl/deb-x86_64/25.2.1/en-US/LibreOffice_25.2.1_Linux_x86-64_deb.tar.gz") ] } ]

/-- Lookup `tool_name in TOOL_VERSIONS` / `TOOL_VERSIONS[tool_name]`. -/
def catFind (cat : List ToolEntry) (tool : String) : Option ToolEntry :=
  cat.find? (fun e => e.name == tool)

/-- Lookup `platform_name in TOOL_VERSIONS[tool]` and the URL. -/
def urlFor (e : ToolEntry) (platformName : String) : Option String :=
  (e.urls.find? (fun p => p.1 == platformName)).map (fun p => p.2)

/-- Model of `get_platform` (lines 41-48): maps `sys.platform` to the
platform key of the catalog, with `linux` as the fallback. -/
def get_platform (sysPlatform : String) : String :=
  if sysPlatform = "win32" then "windows"
  else if sysPlatform = "darwin" then "darwin"
  else "linux"

/-! ## `check_for_updates` (lines 736-762)

The ledger is a map from tool name to the observed state of the `version.json` of that tool. The `updates` dictionary is modelled as an association list
in catalog order. Python truthiness of `installed_version` (`None` and the
empty string are falsy) is preserved. -/

structure UpdateInfo where
  installed : Option String
  latest : String
  updateAvailable : Bool
deriving DecidableEq

/-- Python truthiness of an `Optional[str]`, as in `if installed_version:`. -/
def pyTruthy : Option String → Bool
  | none => false
  | some s => !(s == "")

/-- Model of `check_for_updates` (lines 736-762). -/
def check_for_updates (cat : List ToolEntry) (ledger : String → VersionFile) :
    List (String × UpdateInfo) :=
  cat.map (fun e =>
    let installed_version := getInstalledVersionVal (ledger e.name)
    let latest_version := e.version
    if pyTruthy installed_version then
      (e.name, { installed := installed_version, latest := latest_version,
                 updateAvailable := !(installed_version == some latest_version) })
    else
      (e.name, { installed := none, latest := latest_version,
                 updateAvailable := false }))

/-! ## Extracted trees

The contents of the scratch directory are modelled as the `os.walk` view of the
tree: one entry per directory, with the path components of the directory relative
to the extraction root, its immediate subdirectory names, and its file
names. `pathlib.glob` queries are derived from this view. -/

structure WalkEntry where
  root : List String
  dirs : List String
  files : List String
deriving DecidableEq

/-! ## Archive extractor: `extract_archive` (lines 202-410) -/

/-- The dispatch alternatives of the `if`/`elif` chain in `extract_archive`. -/
inductive ArchiveKind where
  | pafExe
  | msi
  | zip
  | targz
  | tarxz
  | dmg
  | unknown
deriving DecidableEq

/-- The suffix dispatch of `extract_archive` (lines 219, 301, 356, 373, 385,
397, 402), in source order. Dispatch looks only at the file name of the artifact
(and, for the `.dmg` guard, at `sys.platform`), never at file content. -/
def classifyArchive (name : String) (sysPlatform : String) : ArchiveKind :=
  let low := lowerL name.toList
  if endsL low ".paf.exe".toList then .pafExe
  else if lowerL (pySuffixL name.toList) = ".msi".toList then .msi
  else if lowerL (pySuffixL name.toList) = ".zip".toList || endsL low ".zip".toList then .zip
  else if endsL low ".tar.gz".toList || endsL low ".tgz".toList then .targz
  else if endsL low ".tar.xz".toList then .tarxz
  else if endsL low ".dmg".toList && sysPlatform = "darwin" then .dmg
  else .unknown

/-! ## Pipeline environment and state -/

/-- Outcome of one `session.get(url, ...)` attempt inside `download_file`.
A transient error stands for `requests.exceptions.RequestException` raised by
`session.get`/`raise_for_status` (before the output file is opened); any
other exception aborts the call. A successful response carries the advertised
`content-length` (0 when the header is absent) and the number of body bytes
actually delivered. -/
inductive NetOutcome where
  | ok (contentLength : Nat) (bytes : Nat)
  | transientErr
  | otherErr
deriving DecidableEq

/-- The outside world of one pipeline run: `sys.platform`, the
`datetime.now()` string used in the ledger record, the scripted outcome of
the n-th network request, whether reading the (well-formed) archive succeeds,
the tree its extraction produces, and the oracles for extraction that is
delegated to external programs (7-Zip / the installer itself for `.paf.exe`,
`msiexec` for `.msi`). -/
structure Env where
  sysPlatform : String
  now : String
  net : Nat → NetOutcome
  archiveOk : Bool
  archiveTree : List WalkEntry
  pafOutcome : Bool × List WalkEntry
  msiOutcome : Bool × List WalkEntry

/-- The per-tool install directory `portable_tools/<tool>`: names placed in
`bin/`, names placed directly under `program/`, and the `version.json`
record (version, platform, install date). -/
structure ToolDir where
  bin : List String
  program : List String
  versionJson : Option (String × String × String)
deriving DecidableEq

/-- Mutable state threaded through the pipeline: the network request counter,
the `time.sleep` log, the raw `(current, total)` download progress-callback
log, the stage progress-event log, the `temp/` directory (file name ↦ byte
size), the scratch extraction directory (`none` when absent), and the
install directory of the tool. -/
structure St where
  fetches : Nat
  delays : List Nat
  dlProgress : List (Nat × Nat)
  events : List (String × Nat)
  temp : List (String × Nat)
  scratch : Option (List WalkEntry)
  tool : ToolDir

/-- Size of a file in `temp/`, `none` when absent (`file_path.exists()` /
`stat().st_size`). -/
def tempGet (t : List (String × Nat)) (n : String) : Option Nat :=
  (t.find? (fun p => p.1 == n)).map (fun p => p.2)

/-- Write a file in `temp/`; the write mode of `open` truncates. -/
def tempSet (t : List (String × Nat)) (n : String) (sz : Nat) : List (String × Nat) :=
  (n, sz) :: t.filter (fun p => !(p.1 == n))

/-- Delete a file from `temp/` (`download_path.unlink()`). -/
def tempDel (t : List (String × Nat)) (n : String) : List (String × Nat) :=
  t.filter (fun p => !(p.1 == n))

/-- Model of `extract_archive` (lines 202-410) at the granularity the pipeline
observes: suffix dispatch, then either extraction of the tree of the artifact
into the scratch directory or failure. Corrupt-archive exceptions inside
the `zipfile`/`tarfile` branches are represented by `env.archiveOk = false`
(caught by the outer `try`, returning `False`). The `.paf.exe` and `.msi`
branches run external programs, so their success flag and resulting tree
come from the oracles of the environment. The `.dmg` branch (line 397) and the
unrecognized-suffix branch (line 402) return `False` having touched
nothing. -/
def extract_archive (env : Env) (name : String) (st : St) : Bool × St :=
  match classifyArchive name env.sysPlatform with
  | .pafExe =>
    let (ok, tree) := env.pafOutcome
    if ok then (true, { st with scratch := some tree }) else (false, st)
  | .msi =>
    let (ok, tree) := env.msiOutcome
    if ok then (true, { st with scratch := some tree }) else (false, st)
  | .zip =>
    if env.archiveOk then (true, { st with scratch := some env.archiveTree }) else (false, st)
  | .targz =>
    if env.archiveOk then (true, { st with scratch := some env.archiveTree }) else (false, st)
  | .tarxz =>
    if env.archiveOk then (true, { st with scratch := some env.archiveTree }) else (false, st)
  | .dmg => (false, st)
  | .unknown => (false, st)

/-! ## Layout normalizers (lines 412-628)

Each normalizer takes the platform name, the `os.walk` view of the scratch
tree, and the install directory of the tool; it returns the boolean the Python
function returns together with the updated install directory. Copies are
modelled by the destination names they create (`shutil.copy2(src, bin_dir /
exe)` places `exe` in `bin/`); source file contents are irrelevant to every
claim. Copies into `bin/` that repeat a name are harmless, exactly as
repeated `copy2` calls to the same destination are. -/

def ffmpegWinExes : List String := ["ffmpeg.exe", "ffprobe.exe"]

def ffmpegUnixExes : List String := ["ffmpeg", "ffprobe"]

/-- The body of the Windows `os.walk` loop of `organize_ffmpeg` (lines
435-450) for one walked directory `e`: the `'bin' in dirs` probe copies
`bin/<exe>` when that file exists, and the recursive glob for `exe` copies
`exe` when any file of that name lies at or below `e` (all such matches are
copied to the same `bin_dir / exe`, so one destination name per matched
executable captures the effect). -/
def ffmpegWinEntry (walk : List WalkEntry) (e : WalkEntry) : List String :=
  (if e.dirs.contains "bin" then
    ffmpegWinExes.filter (fun exe =>
      walk.any (fun e2 => e2.root == e.root ++ ["bin"] && e2.files.contains exe))
  else [])
  ++ ffmpegWinExes.filter (fun exe =>
      walk.any (fun e2 => e.root.isPrefixOf e2.root && e2.files.contains exe))

/-- Model of `organize_ffmpeg` (lines 412-469). On Windows the walk probes `bin/`
subdirectories and globs for the two executables; on darwin/linux any file
whose name equals or starts with `ffmpeg`/`ffprobe` is copied to
`bin/<exe>`. Returns `found_executables`, which is set by the copy loop
itself — there is no final existence re-check. -/
def organize_ffmpeg (platformName : String) (walk : List WalkEntry) (d : ToolDir) :
    Bool × ToolDir :=
  let copied : List String :=
    if platformName = "windows" then
      (walk.map (fun e => ffmpegWinEntry walk e)).flatten
    else if platformName = "darwin" ∨ platformName = "linux" then
      (walk.map (fun e =>
        (ffmpegUnixExes.map (fun exe =>
          (e.files.filter (fun f => f == exe || exe.toList.isPrefixOf f.toList)).map
          (fun _ => exe))).flatten)).flatten
    else []
  (!copied.isEmpty, { d with bin := d.bin ++ copied })

/-- Model of `organize_pandoc` (lines 471-511): every file named exactly `pandoc.exe`
(Windows) or `pandoc` (elsewhere) found during the walk is copied to
`bin/`; returns `found_executable`, set by the copy loop — no final
existence re-check. -/
def organize_pandoc (platformName : String) (walk : List WalkEntry) (d : ToolDir) :
    Bool × ToolDir :=
  let pandocExe := if platformName = "windows" then "pandoc.exe" else "pandoc"
  let copied := (walk.map (fun e => e.files.filter (fun f => f == pandocExe))).flatten
  (!copied.isEmpty, { d with bin := d.bin ++ copied })

/-- The fallback branch of `organize_libreoffice` on Windows (lines
580-600): glob for `soffice.exe` anywhere under the extract directory, take
the first match, and copy every top-level item of its parent directory into
`program/`. -/
def loFallback (walk : List WalkEntry) : List String :=
  match walk.find? (fun e => e.files.contains "soffice.exe") with
  | some e => e.files ++ e.dirs
  | none => []

/-- Model of `organize_libreoffice` (lines 513-628). On Windows, look for a
PortableApps `App` directory with a nested `program` directory holding
`soffice.exe` and copy the top-level contents of that directory into
`program/`;
otherwise fall back to a direct search for `soffice.exe`. Regardless of
what the copy phase did, `success` is finally overwritten by the existence
re-check of `program/soffice.exe` (Windows) or `program/soffice`
(darwin/linux) at lines 602-606, which is what the function returns. -/
def organize_libreoffice (platformName : String) (walk : List WalkEntry) (d : ToolDir) :
    Bool × ToolDir :=
  let copied : List String :=
    if platformName = "windows" then
      match walk.find? (fun e => e.root.getLastD "" == "App") with
      | some a =>
        match walk.find? (fun e =>
            a.root.isPrefixOf e.root && decide (a.root.length < e.root.length) &&
              e.root.getLastD "" == "program") with
        | some spd =>
          if spd.files.contains "soffice.exe" then spd.files ++ spd.dirs
          else loFallback walk
        | none => loFallback walk
      | none => loFallback walk
    else []
  let prog := d.program ++ copied
  let success :=
    if platformName = "windows" then prog.contains "soffice.exe"
    else if platformName = "darwin" ∨ platformName = "linux" then prog.contains "soffice"
    else false
  (success, { d with program := prog })

/-! ## Fetcher: `download_file` (lines 630-711) -/

/-- The SourceForge filename adjustment (lines 647-654): for SourceForge
LibreOffice URLs, replace the target file name by the first URL path segment
that names the portable installer. -/
def resolveDlName (url target : String) : String :=
  if containsL "sourceforge.net".toList url.toList &&
      containsL "libreoffice".toList (lowerL url.toList) then
    match (splitOnCharL '/' url.toList).find? (fun part =>
        containsL "libreofficeportable".toList (lowerL part) &&
        containsL ".paf.exe".toList (lowerL part)) with
    | some part => String.mk part
    | none => target
  else target

/-- The retry loop `for attempt in range(max_retries)` of `download_file`
(lines 666-711). One iteration issues one network request (counted in
`fetches`); a successful response streams `bytes` body bytes into the file
and reports progress when the content-length header was present; a
size-mismatched download retries while attempts remain but falls through to
`return file_path` on the last attempt; a transient error sleeps 2 seconds
and retries while attempts remain, otherwise returns `None`; any other
exception returns `None` at once. Falling out of the loop returns `None`
(line 711). -/
def dlLoop (env : Env) (name : String) (maxRetries : Nat) :
    List Nat → St → Option String × St
  | [], st => (none, st)
  | attempt :: rest, st =>
    match env.net st.fetches with
    | .ok total bytes =>
      let st' := { st with
        fetches := st.fetches + 1,
        temp := tempSet st.temp name bytes,
        dlProgress := if 0 < total then st.dlProgress ++ [(bytes, total)] else st.dlProgress }
      if 0 < total ∧ bytes ≠ total then
        if attempt < maxRetries - 1 then
          dlLoop env name maxRetries rest st'
        else
          (some name, st')
      else
        (some name, st')
    | .transientErr =>
      let st' := { st with fetches := st.fetches + 1 }
      if attempt < maxRetries - 1 then
        dlLoop env name maxRetries rest { st' with delays := st'.delays ++ [2] }
      else
        (none, st')
    | .otherErr =>
      (none, { st with fetches := st.fetches + 1 })

/-- Model of `download_file` (lines 630-711): resolve the on-disk file name, short-
circuit on an existing non-empty file with a synthetic `(100, 100)` progress
report (lines 656-663), otherwise run the retry loop over the attempt
indices `range(max_retries)`. -/
def download_file (env : Env) (url target : String) (maxRetries : Nat)
    (forceDownload : Bool) (st : St) : Option String × St :=
  let name := resolveDlName url target
  if !forceDownload then
    match tempGet st.temp name with
    | some sz =>
      if 0 < sz then
        (some name, { st with dlProgress := st.dlProgress ++ [(100, 100)] })
      else
        dlLoop env name maxRetries (List.range maxRetries) st
    | none => dlLoop env name maxRetries (List.range maxRetries) st
  else
    dlLoop env name maxRetries (List.range maxRetries) st

/-! ## Orchestrator: `download_and_setup_tool` (lines 77-199) -/

/-- Which terminal line of `download_and_setup_tool` produced the result:
unknown tool (line 93), unsupported platform (line 97), first download check
failed (line 130), second download check failed (line 147), extraction
failed (line 158), or the final `return organize_success` (line 199). -/
inductive PipeOutcome where
  | badTool
  | badPlatform
  | dlFail1
  | dlFail2
  | extractFail
  | organized (ok : Bool)
deriving DecidableEq

/-- The normalizer dispatch of `download_and_setup_tool` (lines 164-170):
select the per-tool strategy by tool identity; an unknown tool leaves
`organize_success = False`. -/
def organizeStep (toolName platformName : String) (walk : List WalkEntry) (st : St) :
    Bool × St :=
  if toolName = "ffmpeg" then
    let (b, d) := organize_ffmpeg platformName walk st.tool
    (b, { st with tool := d })
  else if toolName = "pandoc" then
    let (b, d) := organize_pandoc platformName walk st.tool
    (b, { st with tool := d })
  else if toolName = "libreoffice" then
    let (b, d) := organize_libreoffice platformName walk st.tool
    (b, { st with tool := d })
  else
    (false, st)

/-- Model of `download_and_setup_tool` (lines 77-199) with the terminal
line made observable. Steps, in source order: catalog and platform checks; scratch
directory reset; archive file name from the URL; `("download", 0)` progress
event; a first `download_file` call whose `None` result aborts; an
`("extract", 0)` event; a second (duplicated in the source) `download_file`
call whose `None` result aborts; extraction of the returned artifact;
`("organize", 0)` event; the per-tool normalizer; the `("organize", 100/0)`
event; cleanup of `temp/<archive_filename>` and the scratch directory; and
the ledger write guarded by `organize_success`. `ensure_directories` /
`tool_dir.mkdir` only create directories and are no-ops on the modelled
state. The catalog is the `TOOL_VERSIONS` parameter. -/
def pipelineRun (cat : List ToolEntry) (env : Env) (toolName : String) (st : St) :
    PipeOutcome × St :=
  let platformName := get_platform env.sysPlatform
  match catFind cat toolName with
  | none => (.badTool, st)
  | some entry =>
    match urlFor entry platformName with
    | none => (.badPlatform, st)
    | some url =>
      let st := { st with scratch := some [] }
      let archiveFilename := String.mk ((splitOnCharL '/' url.toList).getLastD [])
      let st := { st with events := st.events ++ [("download", 0)] }
      let (r1, st) := download_file env url archiveFilename 3 false st
      if r1.isNone then (.dlFail1, st)
      else
        let st := { st with events := st.events ++ [("extract", 0)] }
        match download_file env url archiveFilename 3 false st with
        | (none, st) => (.dlFail2, st)
        | (some actualName, st) =>
          match extract_archive env actualName st with
          | (false, st) => (.extractFail, st)
          | (true, st) =>
            let st := { st with events := st.events ++ [("organize", 0)] }
            let walk := st.scratch.getD []
            let (orgOk, st) := organizeStep toolName platformName walk st
            let st := { st with events := st.events ++ [("organize", if orgOk then 100 else 0)] }
            let st := { st with temp := tempDel st.temp archiveFilename, scratch := none }
            if orgOk then
              (.organized true,
                { st with tool := { st.tool with
                    versionJson := some (entry.version, platformName, env.now) } })
            else
              (.organized false, st)

/-- The boolean `download_and_setup_tool` returns to its caller. -/
def download_and_setup_tool (cat : List ToolEntry) (env : Env) (toolName : String)
    (st : St) : Bool × St :=
  match pipelineRun cat env toolName st with
  | (.organized true, st) => (true, st)
  | (_, st) => (false, st)

/-! ## Concrete fixtures for witnesses and counterexamples -/

/-- Empty install directory. -/
def d0 : ToolDir := ⟨[], [], none⟩

/-- Fresh pipeline state: no files anywhere, all counters zero. -/
def st0 : St := ⟨0, [], [], [], [], none, d0⟩

/-- An extracted tree holding a single file `ffprobe` at the root. -/
def wProbe : List WalkEntry := [⟨[], [], ["ffprobe"]⟩]

/-- Linux host, reliable network (every request delivers a complete 7-byte
body), archive containing both `ffmpeg` and `ffprobe` at the root. -/
def envA : Env :=
  ⟨"linux", "2026-01-01 00:00:00", fun _ => .ok 7 7, true,
    [⟨[], [], ["ffmpeg", "ffprobe"]⟩], (false, []), (false, [])⟩

/-- Linux host, reliable network, archive containing only `ffprobe`. -/
def envB : Env :=
  ⟨"linux", "2026-01-01 00:00:00", fun _ => .ok 7 7, true, wProbe, (false, []), (false, [])⟩

/-- A one-tool catalog whose Linux artifact has the unrecognized `.7z`
suffix. -/
def cat7z : List ToolEntry := [⟨"toolB", "1.0", [("linux", "http://example.com/toolB.7z")]⟩]

/-- Linux host, reliable network, empty archive. -/
def envC : Env := ⟨"linux", "d", fun _ => .ok 7 7, true, [], (false, []), (false, [])⟩

/-- Linux host whose every network response advertises 100 bytes but
delivers only 50: every download attempt ends size-mismatched. -/
def envD : Env := ⟨"linux", "d", fun _ => .ok 100 50, true, [], (false, []), (false, [])⟩

/-- Linux host whose first request fails transiently and whose later
requests deliver a complete 5-byte body. -/
def envT1 : Env :=
  ⟨"linux", "d", fun n => if n = 0 then .transientErr else .ok 5 5, true, [], (false, []),
    (false, [])⟩

/-- Linux host whose every request fails transiently. -/
def envT2 : Env := ⟨"linux", "d", fun _ => .transientErr, true, [], (false, []), (false, [])⟩

/-- Linux host whose every request fails with a non-transient error. -/
def envF : Env := ⟨"linux", "d", fun _ => .otherErr, true, [], (false, []), (false, [])⟩

/-- A ledger where ffmpeg has a `version.json` whose `"version"` entry is
the empty string, and no other tool has one. -/
def ledgerEmptyVersion : String → VersionFile :=
  fun t => if t == "ffmpeg" then .dict (some "") else .absent

/-- The artifact-name suffixes the extractor recognizes, as the claim lists
them; an artifact name is recognized when its lower-cased form ends with
one of them. -/
def claimRecognized (name : String) : Bool :=
  [".zip", ".tar.gz", ".tgz", ".tar.xz", ".msi", ".paf.exe"].any
    (fun suf => endsL (lowerL name.toList) suf.toList)

/-! ## Claim C10: totality of `get_installed_version` -/

/-- C10: `get_installed_version` is total at the public interface: for every
observable state of `version.json` it returns `.ok` — never a propagated
exception — and the returned value is the recorded version string exactly
when the file parses to an object with a string `"version"` entry, and
`none` when the file is absent, unreadable or invalid JSON, when the parse
result is not an object, and when the `"version"` entry is missing or null. -/
theorem C10_get_installed_version_total (f : VersionFile) :
    get_installed_version f =
      .ok (match f with | .dict v => v | _ => none) := by
  cases f <;> rfl

/-! ## Claim C9: `check_for_updates` -/

/-- C9 counterexample: the tool `ffmpeg` has a recorded installed version —
the empty string, which `get_installed_version` returns — and the catalog
version is `"7.0.2"`, so plain string inequality demands
`update_available = true`; but `check_for_updates` reports
`installed = None` and `update_available = false`, because the recorded
version is tested for Python truthiness, and the empty string is falsy. -/
theorem C9_counterexample :
    getInstalledVersionVal (ledgerEmptyVersion "ffmpeg") = some "" ∧
    ("" : String) ≠ "7.0.2" ∧
    (check_for_updates TOOL_VERSIONS ledgerEmptyVersion).lookup "ffmpeg" =
      some { installed := none, latest := "7.0.2", updateAvailable := false } := by
  refine ⟨rfl, by decide, rfl⟩

/-- C9 as amended: `check_for_updates` returns an entry for every catalog
tool, in catalog order; a tool whose recorded version is a non-empty string
gets `update_available` equal to the plain string inequality of recorded
and latest version; a tool with no readable recorded version — or with the
empty string recorded, which Python truthiness conflates with absence —
reports `installed = None` and `update_available = false`. -/
theorem C9_amended (cat : List ToolEntry) (ledger : String → VersionFile)
    (e : ToolEntry) (he : e ∈ cat) :
    (check_for_updates cat ledger).map Prod.fst = cat.map ToolEntry.name ∧
    (e.name,
      match getInstalledVersionVal (ledger e.name) with
      | some s =>
        if s = "" then { installed := none, latest := e.version, updateAvailable := false }
        else { installed := some s, latest := e.version,
               updateAvailable := decide (s ≠ e.version) }
      | none => { installed := none, latest := e.version, updateAvailable := false }) ∈
      check_for_updates cat ledger := by
  constructor
  · unfold check_for_updates
    rw [List.map_map]
    apply List.map_congr_left
    intro a _
    simp only [Function.comp]
    split <;> rfl
  · unfold check_for_updates
    refine List.mem_map.mpr ⟨e, he, ?_⟩
    cases hv : getInstalledVersionVal (ledger e.name) with
    | none => simp [pyTruthy, hv]
    | some s =>
      by_cases hs : s = ""
      · subst hs
        simp [pyTruthy, hv]
      · by_cases hse : s = e.version
        · subst hse
          simp [pyTruthy, hv, hs]
        · simp [pyTruthy, hv, hs, hse, beq_eq_false_iff_ne, Ne, not_false_eq_true]

/-- C9 amended, instantiated: on the real catalog with the
`ledgerEmptyVersion` ledger, every tool gets an entry and `pandoc` (no
recorded version) reports not-installed with no update flagged. -/
theorem C9_amended_witness :
    (check_for_updates TOOL_VERSIONS ledgerEmptyVersion).map Prod.fst =
      TOOL_VERSIONS.map ToolEntry.name ∧
    ("pandoc",
      ({ installed := none, latest := "3.6.3", updateAvailable := false } : UpdateInfo)) ∈
      check_for_updates TOOL_VERSIONS ledgerEmptyVersion := by
  exact C9_amended TOOL_VERSIONS ledgerEmptyVersion
    ⟨"pandoc", "3.6.3",
      [("windows", "https://github.com/jgm/pandoc/releases/download/3.6.3/pandoc-3.6.3-windows-x86_64.zip"),
       ("darwin", "https://github.com/jgm/pandoc/releases/download/3.6.3/pandoc-3.6.3-macOS.zip"),
       ("linux", "https://github.com/jgm/pandoc/releases/download/3.6.3/pandoc-3.6.3-linux-amd64.tar.gz")]⟩
    (by decide)

/-! ## Claim C1: normalizer post-condition -/

/-- C1 counterexample: on linux, `organize_ffmpeg` applied to an extracted
tree holding only an `ffprobe` file reports success, yet the canonical
entry-point executable `ffmpeg` is not at its target path `bin/ffmpeg` —
the ffmpeg strategy declares success from the copy loop having matched
something, without re-checking that the entry point is present. -/
theorem C1_counterexample :
    (organize_ffmpeg "linux" wProbe d0).1 = true ∧
    ((organize_ffmpeg "linux" wProbe d0).2.bin.contains "ffmpeg") = false := by
  decide

/-! ## Claim C3: size-mismatch handling in `download_file` -/

/-- C3 counterexample: every attempt advertises 100 bytes and delivers 50,
so every attempt ends size-mismatched; `download_file` uses all 3 attempts
and then returns the path of the 50-byte incomplete artifact instead of the
failure value `None`: on the last attempt a mismatch only logs a warning
and falls through to `return file_path`. -/
theorem C3_counterexample :
    (download_file envD "http://example.com/a.bin" "a.bin" 3 false st0).1 = some "a.bin" ∧
    tempGet (download_file envD "http://example.com/a.bin" "a.bin" 3 false st0).2.temp
      "a.bin" = some 50 ∧
    (50 : Nat) ≠ 100 ∧
    (download_file envD "http://example.com/a.bin" "a.bin" 3 false st0).2.fetches = 3 := by
  decide

/-! ## Claim C4: idempotent second install -/

/-- C4 counterexample: with the real catalog on linux and a fully reliable
network, a first `install("ffmpeg")` succeeds using one network fetch (its
duplicated second `download_file` call is served from the just-written file
with synthetic 100% progress), but because the cleanup step deleted the
downloaded artifact, a second install finds no cached file and performs a
second network fetch — the fetch counter reaches 2 — contradicting the
claim that no second network fetch is performed. -/
theorem C4_counterexample :
    (download_and_setup_tool TOOL_VERSIONS envA "ffmpeg" st0).1 = true ∧
    (download_and_setup_tool TOOL_VERSIONS envA "ffmpeg" st0).2.fetches = 1 ∧
    (download_and_setup_tool TOOL_VERSIONS envA "ffmpeg" st0).2.dlProgress =
      [(7, 7), (100, 100)] ∧
    (download_and_setup_tool TOOL_VERSIONS envA "ffmpeg"
      (download_and_setup_tool TOOL_VERSIONS envA "ffmpeg" st0).2).1 = true ∧
    (download_and_setup_tool TOOL_VERSIONS envA "ffmpeg"
      (download_and_setup_tool TOOL_VERSIONS envA "ffmpeg" st0).2).2.fetches = 2 := by
  decide

/-- C4 as amended: the no-refetch fast path lives in `download_file` alone:
when the resolved target file still exists non-empty and `force_download`
is false, the call returns that file immediately, with a single synthetic
`(100, 100)` progress report and no network request and no other state
change. Across two full installs this fast path never triggers, because
cleanup deletes the artifact at the end of the first install: the second
install re-fetches and still succeeds (see the counterexample for that
run). -/
theorem C4_amended (env : Env) (url target : String) (maxRetries : Nat) (st : St)
    (sz : Nat) (h1 : tempGet st.temp (resolveDlName url target) = some sz)
    (h2 : 0 < sz) :
    download_file env url target maxRetries false st =
      (some (resolveDlName url target),
        { st with dlProgress := st.dlProgress ++ [(100, 100)] }) := by
  unfold download_file
  dsimp only
  rw [h1]
  simp [h2]

/-- C4 amended, instantiated at a state already holding a 7-byte
`toolB.7z`. -/
theorem C4_amended_witness :
    download_file envC "http://example.com/toolB.7z" "toolB.7z" 3 false
      { st0 with temp := [("toolB.7z", 7)] } =
      (some "toolB.7z",
        { st0 with temp := [("toolB.7z", 7)], dlProgress := [(100, 100)] }) := by
  exact C4_amended envC "http://example.com/toolB.7z" "toolB.7z" 3
    { st0 with temp := [("toolB.7z", 7)] } 7 (by decide) (by decide)

/-! ## Claim C5: ledger record vs entry point on disk -/

/-- C5 counterexample: the full ffmpeg install pipeline on an archive that
contains only `ffprobe` ends in success and writes the `version.json`
ledger record, yet at record-write time the canonical entry-point file
`bin/ffmpeg` does not exist — the record is written exactly on normalize
success, but ffmpeg normalize success does not re-check the entry point. -/
theorem C5_counterexample :
    (download_and_setup_tool TOOL_VERSIONS envB "ffmpeg" st0).1 = true ∧
    (download_and_setup_tool TOOL_VERSIONS envB "ffmpeg" st0).2.tool.versionJson =
      some ("7.0.2", "linux", "2026-01-01 00:00:00") ∧
    ((download_and_setup_tool TOOL_VERSIONS envB "ffmpeg" st0).2.tool.bin.contains
      "ffmpeg") = false := by
  decide

/-! ## Claim C2: guaranteed cleanup -/

/-- C2 counterexample: installing a tool whose artifact has the
unrecognized `.7z` suffix fails at the extract stage, and the early
`return False` (line 158) skips the cleanup step entirely: the 7-byte
downloaded artifact is still in `temp/` and the scratch extraction
directory still exists when the call returns — contradicting the claim
that the artifact is deleted and the scratch directory removed on every
terminal outcome. -/
theorem C2_counterexample :
    (pipelineRun cat7z envC "toolB" st0).1 = .extractFail ∧
    (pipelineRun cat7z envC "toolB" st0).2.scratch = some [] ∧
    tempGet (pipelineRun cat7z envC "toolB" st0).2.temp "toolB.7z" = some 7 ∧
    (download_and_setup_tool cat7z envC "toolB" st0).1 = false := by
  decide

/-- C1 as amended: the self-verifying post-condition holds for the pandoc
and libreoffice strategies but not for ffmpeg. `organize_pandoc` reports
success only if the pandoc executable is in `bin/` (success is recorded
exactly when the executable was copied to its target, not by a final
re-check); `organize_libreoffice` reports success only if the soffice
executable is in `program/` (this one is established by an explicit final
existence re-check); `organize_ffmpeg` only guarantees that at least one of
the two media binaries reached `bin/` — the canonical `ffmpeg` entry point
itself need not exist (see the counterexample). -/
theorem C1_amended (p : String) (walk : List WalkEntry) (d : ToolDir) :
    ((organize_pandoc p walk d).1 = true →
      (if p = "windows" then "pandoc.exe" else "pandoc") ∈ (organize_pandoc p walk d).2.bin) ∧
    ((organize_libreoffice p walk d).1 = true →
      (if p = "windows" then "soffice.exe" else "soffice") ∈
        (organize_libreoffice p walk d).2.program) ∧
    ((organize_ffmpeg p walk d).1 = true →
      (if p = "windows" then "ffmpeg.exe" else "ffmpeg") ∈ (organize_ffmpeg p walk d).2.bin ∨
      (if p = "windows" then "ffprobe.exe" else "ffprobe") ∈
        (organize_ffmpeg p walk d).2.bin) := by
  refine ⟨?_, ?_, ?_⟩
  · intro h
    unfold organize_pandoc at h ⊢
    dsimp only at h ⊢
    rw [Bool.not_eq_eq_eq_not, Bool.not_true, List.isEmpty_eq_false] at h
    obtain ⟨x, hx⟩ := List.exists_mem_of_ne_nil _ h
    have hxe : x = if p = "windows" then "pandoc.exe" else "pandoc" := by
      obtain ⟨s, hs, hxs⟩ := List.mem_flatten.mp hx
      obtain ⟨e, _, rfl⟩ := List.mem_map.mp hs
      have := (List.mem_filter.mp hxs).2
      simpa using this
    exact List.mem_append_right _ (hxe ▸ hx)
  · intro h
    unfold organize_libreoffice at h ⊢
    dsimp only at h ⊢
    split_ifs at h ⊢ <;> simp_all [List.elem_iff]
  · intro h
    unfold organize_ffmpeg at h ⊢
    dsimp only at h ⊢
    by_cases hw : p = "windows"
    · simp only [hw, if_true, reduceIte] at h ⊢
      rw [Bool.not_eq_eq_eq_not, Bool.not_true, List.isEmpty_eq_false] at h
      obtain ⟨x, hx⟩ := List.exists_mem_of_ne_nil _ h
      have hxe : x = "ffmpeg.exe" ∨ x = "ffprobe.exe" := by
        obtain ⟨s, hs, hxs⟩ := List.mem_flatten.mp hx
        obtain ⟨e, _, rfl⟩ := List.mem_map.mp hs
        rcases List.mem_append.mp hxs with hl | hr
        · have hbase : x ∈ ffmpegWinExes := by
            split at hl
            · exact (List.mem_filter.mp hl).1
            · simp at hl
          simpa [ffmpegWinExes] using hbase
        · have hbase : x ∈ ffmpegWinExes := (List.mem_filter.mp hr).1
          simpa [ffmpegWinExes] using hbase
      rcases hxe with rfl | rfl
      · exact Or.inl (List.mem_append_right _ hx)
      · exact Or.inr (List.mem_append_right _ hx)
    · by_cases hdl : p = "darwin" ∨ p = "linux"
      · simp only [hw, if_false, reduceIte, hdl, if_true] at h ⊢
        rw [Bool.not_eq_eq_eq_not, Bool.not_true, List.isEmpty_eq_false] at h
        obtain ⟨x, hx⟩ := List.exists_mem_of_ne_nil _ h
        have hxe : x = "ffmpeg" ∨ x = "ffprobe" := by
          obtain ⟨s, hs, hxs⟩ := List.mem_flatten.mp hx
          obtain ⟨e, _, rfl⟩ := List.mem_map.mp hs
          obtain ⟨s2, hs2, hxs2⟩ := List.mem_flatten.mp hxs
          obtain ⟨exe, hexe, rfl⟩ := List.mem_map.mp hs2
          obtain ⟨_, _, rfl⟩ := List.mem_map.mp hxs2
          simpa [ffmpegUnixExes] using hexe
        rcases hxe with rfl | rfl
        · exact Or.inl (List.mem_append_right _ hx)
        · exact Or.inr (List.mem_append_right _ hx)
      · simp only [hw, if_false, reduceIte, hdl] at h
        simp at h

/-- C1 amended, instantiated: a pandoc tree with `pandoc` at the root, a
libreoffice install directory already holding `program/soffice`, and the
ffprobe-only ffmpeg tree of the counterexample. -/
theorem C1_amended_witness :
    "pandoc" ∈ (organize_pandoc "linux" [⟨[], [], ["pandoc"]⟩] d0).2.bin ∧
    "soffice" ∈ (organize_libreoffice "linux" [] ⟨[], ["soffice"], none⟩).2.program ∧
    ("ffmpeg" ∈ (organize_ffmpeg "linux" wProbe d0).2.bin ∨
      "ffprobe" ∈ (organize_ffmpeg "linux" wProbe d0).2.bin) := by
  refine ⟨?_, ?_, ?_⟩
  · exact (C1_amended "linux" [⟨[], [], ["pandoc"]⟩] d0).1 (by decide)
  · exact (C1_amended "linux" [] ⟨[], ["soffice"], none⟩).2.1 (by decide)
  · exact (C1_amended "linux" wProbe d0).2.2 (by decide)

/-! ## Claim C7: fail before network on unsupported tool/platform -/

/-- C7: when the tool is not in the catalog, or its catalog entry has no
URL for the current platform, `download_and_setup_tool` returns `False`
with the state completely untouched — in particular the network request
counter is unchanged, so no download request was issued. -/
theorem C7_no_url_no_network (cat : List ToolEntry) (env : Env) (tool : String) (st : St)
    (h : catFind cat tool = none ∨
      ∃ e, catFind cat tool = some e ∧ urlFor e (get_platform env.sysPlatform) = none) :
    download_and_setup_tool cat env tool st = (false, st) := by
  unfold download_and_setup_tool pipelineRun
  rcases h with h | ⟨e, he, hu⟩
  · rw [h]
  · rw [he]
    dsimp only
    rw [hu]

/-- C7 instantiated: installing the unknown tool `7zip` against the real
catalog returns `False` and leaves the fresh state untouched. -/
theorem C7_witness : download_and_setup_tool TOOL_VERSIONS envF "7zip" st0 = (false, st0) :=
  C7_no_url_no_network TOOL_VERSIONS envF "7zip" st0 (Or.inl (by decide))

/-! ## Retry-loop lemmas for `download_file` -/

/-- Reading back a file just written to `temp/`. -/
theorem tempGet_tempSet (t : List (String × Nat)) (n : String) (sz : Nat) :
    tempGet (tempSet t n sz) n = some sz := by
  unfold tempGet tempSet
  simp

/-- Running the retry loop over the attempt indices `range' a n` (with
`a + n = maxRetries`) when the first `k` requests fail transiently and
request `k` succeeds with a size-consistent body: the loop succeeds after
exactly `k + 1` requests with one 2-second delay between consecutive
attempts, and the file holds the delivered body. -/
theorem dlLoop_transient_then_ok (env : Env) (name : String) (maxRetries L : Nat) :
    ∀ (k a n : Nat) (st : St), a + n = maxRetries → k < n →
      (∀ i, i < k → env.net (st.fetches + i) = .transientErr) →
      env.net (st.fetches + k) = .ok L L →
      ∃ st', dlLoop env name maxRetries (List.range' a n) st = (some name, st') ∧
        st'.fetches = st.fetches + (k + 1) ∧
        st'.delays = st.delays ++ List.replicate k 2 ∧
        tempGet st'.temp name = some L := by
  intro k
  induction k with
  | zero =>
    intro a n st han hk htrans hok
    obtain ⟨n', rfl⟩ : ∃ n', n = n' + 1 := ⟨n - 1, by omega⟩
    rw [List.range']
    unfold dlLoop
    rw [Nat.add_zero] at hok
    rw [hok]
    dsimp only
    rw [if_neg (by simp)]
    exact ⟨_, rfl, rfl, by simp, tempGet_tempSet _ _ _⟩
  | succ k ih =>
    intro a n st han hk htrans hok
    obtain ⟨n', rfl⟩ : ∃ n', n = n' + 1 := ⟨n - 1, by omega⟩
    rw [List.range']
    unfold dlLoop
    rw [show env.net st.fetches = .transientErr by
      simpa using htrans 0 (by omega)]
    dsimp only
    rw [if_pos (by omega)]
    obtain ⟨st', heq, hf, hd, ht⟩ := ih (a + 1) n'
      { st with fetches := st.fetches + 1, delays := st.delays ++ [2] }
      (by omega) (by omega)
      (by
        intro i hi
        show env.net (st.fetches + 1 + i) = .transientErr
        rw [show st.fetches + 1 + i = st.fetches + (i + 1) by omega]
        exact htrans (i + 1) (by omega))
      (by
        show env.net (st.fetches + 1 + k) = .ok L L
        rw [show st.fetches + 1 + k = st.fetches + (k + 1) by omega]
        exact hok)
    refine ⟨st', heq, by simp at hf ⊢; omega, ?_, ht⟩
    rw [hd]
    simp [List.replicate_succ]

/-- Running the retry loop over `range' a n` (with `a + n = maxRetries`)
when every request fails transiently: the loop returns `None` after exactly
`n` requests, with a 2-second delay after each non-final attempt, leaving
the temp directory untouched. -/
theorem dlLoop_all_transient (env : Env) (name : String) (maxRetries : Nat) :
    ∀ (n a : Nat) (st : St), a + n = maxRetries → 0 < n →
      (∀ i, i < n → env.net (st.fetches + i) = .transientErr) →
      ∃ st', dlLoop env name maxRetries (List.range' a n) st = (none, st') ∧
        st'.fetches = st.fetches + n ∧
        st'.delays = st.delays ++ List.replicate (n - 1) 2 ∧
        st'.temp = st.temp := by
  intro n
  induction n with
  | zero => intro a st _ hn; omega
  | succ n' ih =>
    intro a st han _ htrans
    rw [List.range']
    unfold dlLoop
    rw [show env.net st.fetches = .transientErr by
      simpa using htrans 0 (by omega)]
    dsimp only
    by_cases hlast : n' = 0
    · subst hlast
      rw [if_neg (by omega)]
      exact ⟨_, rfl, rfl, by simp, rfl⟩
    · rw [if_pos (by omega)]
      obtain ⟨st', heq, hf, hd, ht⟩ := ih (a + 1)
        { st with fetches := st.fetches + 1, delays := st.delays ++ [2] }
        (by omega) (by omega)
        (by
          intro i hi
          show env.net (st.fetches + 1 + i) = .transientErr
          rw [show st.fetches + 1 + i = st.fetches + (i + 1) by omega]
          exact htrans (i + 1) (by omega))
      refine ⟨st', heq, by simp at hf ⊢; omega, ?_, ht⟩
      rw [hd]
      obtain ⟨m, rfl⟩ : ∃ m, n' = m + 1 := ⟨n' - 1, by omega⟩
      simp [List.replicate_succ]

/-- Running the retry loop over `range' a n` (with `a + n = maxRetries`)
when every response advertises `L > 0` bytes but delivers `B ≠ L`: every
attempt ends size-mismatched, the mismatch is retried without any sleep
while attempts remain, and the final attempt falls through to returning the
file path — the loop uses exactly `n` requests and the file holds the
incomplete `B`-byte body. -/
theorem dlLoop_all_mismatch (env : Env) (name : String) (maxRetries L B : Nat)
    (hL : 0 < L) (hB : B ≠ L) :
    ∀ (n a : Nat) (st : St), a + n = maxRetries → 0 < n →
      (∀ i, i < n → env.net (st.fetches + i) = .ok L B) →
      ∃ st', dlLoop env name maxRetries (List.range' a n) st = (some name, st') ∧
        st'.fetches = st.fetches + n ∧
        st'.delays = st.delays ∧
        tempGet st'.temp name = some B := by
  intro n
  induction n with
  | zero => intro a st _ hn; omega
  | succ n' ih =>
    intro a st han _ hnet
    rw [List.range']
    unfold dlLoop
    rw [show env.net st.fetches = .ok L B by
      simpa using hnet 0 (by omega)]
    dsimp only
    rw [if_pos ⟨hL, hB⟩]
    by_cases hlast : n' = 0
    · subst hlast
      rw [if_neg (by omega)]
      exact ⟨_, rfl, rfl, rfl, tempGet_tempSet _ _ _⟩
    · rw [if_pos (by omega)]
      obtain ⟨st', heq, hf, hd, ht⟩ := ih (a + 1)
        { st with fetches := st.fetches + 1, temp := tempSet st.temp name B, dlProgress := (if 0 < L then st.dlProgress ++ [(B, L)] else st.dlProgress) }
        (by omega) (by omega)
        (by
          intro i hi
          show env.net (st.fetches + 1 + i) = .ok L B
          rw [show st.fetches + 1 + i = st.fetches + (i + 1) by omega]
          exact hnet (i + 1) (by omega))
      exact ⟨st', heq, by simp at hf ⊢; omega, hd, ht⟩

/-! ## Claim C6: retry bound of `download_file` -/

/-- C6: with no usable cached file, a fetch whose first `k < maxRetries`
requests fail transiently and whose next request delivers a complete body
returns the artifact path using exactly `k + 1` attempts with the fixed
2-second delay between consecutive attempts; a fetch whose requests all
fail transiently returns `None` using exactly `maxRetries` attempts, again
with the fixed delay between consecutive attempts. -/
theorem C6_retry_bound (env : Env) (url target : String) (maxRetries k L : Nat) (st : St)
    (hcache : tempGet st.temp (resolveDlName url target) = none) :
    (k < maxRetries →
      (∀ i, i < k → env.net (st.fetches + i) = .transientErr) →
      env.net (st.fetches + k) = .ok L L →
      ∃ st', download_file env url target maxRetries false st =
          (some (resolveDlName url target), st') ∧
        st'.fetches = st.fetches + (k + 1) ∧
        st'.delays = st.delays ++ List.replicate k 2) ∧
    (0 < maxRetries →
      (∀ i, i < maxRetries → env.net (st.fetches + i) = .transientErr) →
      ∃ st', download_file env url target maxRetries false st = (none, st') ∧
        st'.fetches = st.fetches + maxRetries ∧
        st'.delays = st.delays ++ List.replicate (maxRetries - 1) 2) := by
  constructor
  · intro hk htrans hok
    unfold download_file
    dsimp only
    rw [hcache, List.range_eq_range']
    obtain ⟨st', heq, hf, hd, _⟩ :=
      dlLoop_transient_then_ok env (resolveDlName url target) maxRetries L k 0 maxRetries
        st (by omega) hk htrans hok
    exact ⟨st', by simpa using heq, hf, hd⟩
  · intro hmax htrans
    unfold download_file
    dsimp only
    rw [hcache, List.range_eq_range']
    obtain ⟨st', heq, hf, hd, _⟩ :=
      dlLoop_all_transient env (resolveDlName url target) maxRetries maxRetries 0
        st (by omega) hmax htrans
    exact ⟨st', by simpa using heq, hf, hd⟩

/-- C6 instantiated: one transient failure then a complete 5-byte body
succeeds on the second attempt with one delay; three transient failures
exhaust `max_retries = 3` with two delays and return `None`. -/
theorem C6_witness :
    (∃ st', download_file envT1 "http://example.com/a.bin" "a.bin" 3 false st0 =
        (some "a.bin", st') ∧ st'.fetches = 2 ∧ st'.delays = [2]) ∧
    (∃ st', download_file envT2 "http://example.com/a.bin" "a.bin" 3 false st0 =
        (none, st') ∧ st'.fetches = 3 ∧ st'.delays = [2, 2]) := by
  constructor
  · exact (C6_retry_bound envT1 "http://example.com/a.bin" "a.bin" 3 1 5 st0 rfl).1
      (by omega)
      (by intro i hi; interval_cases i; rfl)
      rfl
  · exact (C6_retry_bound envT2 "http://example.com/a.bin" "a.bin" 3 0 0 st0 rfl).2
      (by omega)
      (by intro i _; rfl)

/-- C3 as amended: a size-mismatched attempt is treated as a failed attempt
and retried (without sleeping) only while attempts remain; when the final
attempt also ends mismatched, `download_file` does not return the failure
value `None` — it logs a warning and returns the path of the incomplete
artifact, whose on-disk size is the delivered byte count, not the
advertised one. `None` is reserved for runs whose final attempt raised. -/
theorem C3_amended (env : Env) (url target : String) (maxRetries L B : Nat) (st : St)
    (hcache : tempGet st.temp (resolveDlName url target) = none)
    (hmax : 0 < maxRetries) (hL : 0 < L) (hB : B ≠ L)
    (hnet : ∀ i, i < maxRetries → env.net (st.fetches + i) = .ok L B) :
    ∃ st', download_file env url target maxRetries false st =
        (some (resolveDlName url target), st') ∧
      st'.fetches = st.fetches + maxRetries ∧
      tempGet st'.temp (resolveDlName url target) = some B := by
  unfold download_file
  dsimp only
  rw [hcache, List.range_eq_range']
  obtain ⟨st', heq, hf, _, ht⟩ :=
    dlLoop_all_mismatch env (resolveDlName url target) maxRetries L B hL hB maxRetries 0
      st (by omega) hmax hnet
  exact ⟨st', by simpa using heq, hf, ht⟩

/-- C3 amended, instantiated: three attempts that each advertise 100 bytes
and deliver 50 return the path of the 50-byte artifact after exactly 3
attempts. -/
theorem C3_amended_witness :
    ∃ st', download_file envD "http://example.com/a.bin" "a.bin" 3 false st0 =
        (some "a.bin", st') ∧
      st'.fetches = 3 ∧
      tempGet st'.temp "a.bin" = some 50 := by
  exact C3_amended envD "http://example.com/a.bin" "a.bin" 3 100 50 st0 rfl
    (by omega) (by omega) (by omega) (by intro i _; rfl)

/-! ## Suffix lemmas and Claim C8 -/

/-- The segment `lastDotSeg` finds is a suffix of its input. -/
theorem lastDotSeg_suffix : ∀ (cs s : List Char), lastDotSeg cs = some s → s <:+ cs := by
  intro cs
  induction cs with
  | nil => intro s h; simp [lastDotSeg] at h
  | cons c t ih =>
    intro s h
    unfold lastDotSeg at h
    cases hl : lastDotSeg t with
    | some s2 =>
      rw [hl] at h
      cases h
      exact (ih _ hl).trans (List.suffix_cons c t)
    | none =>
      rw [hl] at h
      by_cases hc : c = '.'
      · rw [if_pos hc] at h
        cases h
        exact List.suffix_rfl
      · rw [if_neg hc] at h
        cases h

/-- The pathlib suffix of a name is empty or a suffix of the name. -/
theorem pySuffixL_suffix (nl : List Char) : pySuffixL nl = [] ∨ pySuffixL nl <:+ nl := by
  cases nl with
  | nil => exact Or.inl rfl
  | cons c rest =>
    rw [pySuffixL]
    cases hl : lastDotSeg rest with
    | none => exact Or.inl rfl
    | some s =>
      cases s with
      | nil => exact Or.inl rfl
      | cons c2 cs2 =>
        dsimp only
        split
        · exact Or.inl rfl
        · exact Or.inr ((lastDotSeg_suffix rest _ hl).trans (List.suffix_cons c rest))

/-- If the lower-cased pathlib suffix of a name equals `suf` (non-trivially),
the lower-cased name ends with `suf`. -/
theorem endsL_lower_pySuffix (nl suf : List Char) (h : lowerL (pySuffixL nl) = suf)
    (hne : pySuffixL nl ≠ []) : endsL (lowerL nl) suf = true := by
  rcases pySuffixL_suffix nl with h0 | h0
  · exact absurd h0 hne
  · subst h
    unfold endsL lowerL
    exact List.isPrefixOf_iff_prefix.mpr (List.reverse_prefix.mpr (h0.map Char.toLower))

/-- Two endings of the same list are comparable in reverse. -/
theorem endsL_rev_comparable {l a b : List Char} (ha : endsL l a = true)
    (hb : endsL l b = true) : a.reverse <+: b.reverse ∨ b.reverse <+: a.reverse := by
  unfold endsL at ha hb
  exact List.prefix_or_prefix_of_prefix (List.isPrefixOf_iff_prefix.mp ha)
    (List.isPrefixOf_iff_prefix.mp hb)

/-- A list cannot end with two incomparable endings. -/
theorem endsL_false_of_incomp {l a b : List Char} (ha : endsL l a = true)
    (hnc : ¬(a.reverse <+: b.reverse ∨ b.reverse <+: a.reverse)) : endsL l b = false := by
  cases hb : endsL l b
  · rfl
  · exact absurd (endsL_rev_comparable ha hb) hnc

/-- When the lower-cased name does not end with a non-empty `suf`, the
`pathlib.suffix`-based guard comparing against `suf` is false. -/
theorem pySuffix_guard_false {nl suf : List Char} (hsufne : suf ≠ [])
    (hends : endsL (lowerL nl) suf = false) : ¬ lowerL (pySuffixL nl) = suf := by
  intro heq
  have hne : pySuffixL nl ≠ [] := by
    intro h0
    rw [h0] at heq
    exact hsufne (by simpa [lowerL] using heq.symm)
  rw [endsL_lower_pySuffix nl suf heq hne] at hends
  cases hends

/-- An artifact name recognized by none of the six claimed suffixes is
dispatched to the `.dmg` branch or the unrecognized branch. -/
theorem classify_of_not_recognized (name p : String) (h : claimRecognized name = false) :
    classifyArchive name p = .dmg ∨ classifyArchive name p = .unknown := by
  simp only [claimRecognized, List.any_cons, List.any_nil, Bool.or_eq_false_iff] at h
  obtain ⟨hzip, htargz, htgz, htarxz, hmsi, hpaf, -⟩ := h
  have hzipD : decide (lowerL (pySuffixL name.toList) = ".zip".toList) = false :=
    decide_eq_false (pySuffix_guard_false (by decide) hzip)
  unfold classifyArchive
  dsimp only
  rw [if_neg (by simp only [hpaf]; decide), if_neg (pySuffix_guard_false (by decide) hmsi),
    if_neg (by simp only [hzipD, hzip]; decide),
    if_neg (by simp only [htargz, htgz]; decide), if_neg (by simp only [htarxz]; decide)]
  split
  · exact Or.inl rfl
  · exact Or.inr rfl

/-- An artifact name ending with `.dmg` is dispatched to the `.dmg` branch
or (off darwin) the unrecognized branch. -/
theorem classify_of_dmg (name p : String)
    (hd : endsL (lowerL name.toList) ".dmg".toList = true) :
    classifyArchive name p = .dmg ∨ classifyArchive name p = .unknown := by
  have hpaf : endsL (lowerL name.toList) ".paf.exe".toList = false :=
    endsL_false_of_incomp hd (by decide)
  have hmsi : endsL (lowerL name.toList) ".msi".toList = false :=
    endsL_false_of_incomp hd (by decide)
  have hzip : endsL (lowerL name.toList) ".zip".toList = false :=
    endsL_false_of_incomp hd (by decide)
  have htargz : endsL (lowerL name.toList) ".tar.gz".toList = false :=
    endsL_false_of_incomp hd (by decide)
  have htgz : endsL (lowerL name.toList) ".tgz".toList = false :=
    endsL_false_of_incomp hd (by decide)
  have htarxz : endsL (lowerL name.toList) ".tar.xz".toList = false :=
    endsL_false_of_incomp hd (by decide)
  have hzipD : decide (lowerL (pySuffixL name.toList) = ".zip".toList) = false :=
    decide_eq_false (pySuffix_guard_false (by decide) hzip)
  unfold classifyArchive
  dsimp only
  rw [if_neg (by simp only [hpaf]; decide), if_neg (pySuffix_guard_false (by decide) hmsi),
    if_neg (by simp only [hzipD, hzip]; decide),
    if_neg (by simp only [htargz, htgz]; decide), if_neg (by simp only [htarxz]; decide)]
  split
  · exact Or.inl rfl
  · exact Or.inr rfl

/-- C8: dispatch of `extract_archive` looks only at the artifact file name
(the environment — and with it every byte of file content — is universally
quantified and irrelevant): an artifact whose name ends with none of the
recognized suffixes (.zip, .tar.gz, .tgz, .tar.xz, .msi, .paf.exe) fails
with `False` and the state untouched — no extraction is attempted — and an
artifact ending with `.dmg` likewise fails explicitly, on darwin through
the unimplemented `.dmg` branch and elsewhere through the unrecognized
branch. -/
theorem C8_unrecognized_fails (env : Env) (name : String) (st : St) :
    (claimRecognized name = false → extract_archive env name st = (false, st)) ∧
    (endsL (lowerL name.toList) ".dmg".toList = true →
      extract_archive env name st = (false, st)) := by
  constructor
  · intro h
    unfold extract_archive
    rcases classify_of_not_recognized name env.sysPlatform h with hc | hc <;> rw [hc]
  · intro h
    unfold extract_archive
    rcases classify_of_dmg name env.sysPlatform h with hc | hc <;> rw [hc]

/-- C8 instantiated: a `.7z` artifact and a `.dmg` artifact both fail with
the state untouched. -/
theorem C8_witness :
    extract_archive envC "toolB.7z" st0 = (false, st0) ∧
    extract_archive envC "LibreOffice_25.2.1_MacOS_x86-64.dmg" st0 = (false, st0) := by
  constructor
  · exact (C8_unrecognized_fails envC "toolB.7z" st0).1 (by decide)
  · exact (C8_unrecognized_fails envC "LibreOffice_25.2.1_MacOS_x86-64.dmg" st0).2 (by decide)

/-! ## Pipeline-state lemmas -/

/-- The retry loop never touches the install directory. -/
theorem dlLoop_tool (env : Env) (name : String) (maxRetries : Nat) :
    ∀ (idxs : List Nat) (st : St),
      (dlLoop env name maxRetries idxs st).2.tool = st.tool := by
  intro idxs
  induction idxs with
  | nil => intro st; rfl
  | cons a rest ih =>
    intro st
    unfold dlLoop
    cases env.net st.fetches with
    | ok total bytes =>
      dsimp only
      split
      · split
        · exact ih _
        · rfl
      · rfl
    | transientErr =>
      dsimp only
      split
      · exact ih _
      · rfl
    | otherErr => rfl

/-- The fetcher `download_file` never touches the install directory. -/
theorem download_file_tool (env : Env) (url target : String) (maxRetries : Nat)
    (forceDownload : Bool) (st : St) :
    (download_file env url target maxRetries forceDownload st).2.tool = st.tool := by
  unfold download_file
  dsimp only
  split
  · split
    · split
      · rfl
      · exact dlLoop_tool env _ maxRetries _ st
    · exact dlLoop_tool env _ maxRetries _ st
  · exact dlLoop_tool env _ maxRetries _ st

/-- The extractor `extract_archive` never touches the install directory. -/
theorem extract_archive_tool (env : Env) (name : String) (st : St) :
    (extract_archive env name st).2.tool = st.tool := by
  unfold extract_archive
  split <;> first
    | rfl
    | (split <;> rfl)
    | (split; split <;> rfl)

/-- The normalizer dispatch never touches the ledger record. -/
theorem organizeStep_versionJson (toolName platformName : String) (walk : List WalkEntry)
    (st : St) :
    (organizeStep toolName platformName walk st).2.tool.versionJson =
      st.tool.versionJson := by
  unfold organizeStep
  split
  · rfl
  · split
    · rfl
    · split
      · rfl
      · rfl

/-- Deleting a file from `temp/` makes it absent. -/
theorem tempGet_tempDel (t : List (String × Nat)) (n : String) :
    tempGet (tempDel t n) n = none := by
  unfold tempGet tempDel
  rw [List.find?_eq_none.mpr]
  · rfl
  · intro x hx
    simpa using (List.mem_filter.mp hx).2

/-- The boolean wrapper returns the same state as the instrumented run. -/
theorem download_setup_snd (cat : List ToolEntry) (env : Env) (tool : String) (st : St) :
    (download_and_setup_tool cat env tool st).2 = (pipelineRun cat env tool st).2 := by
  unfold download_and_setup_tool
  rcases h : pipelineRun cat env tool st with ⟨o, st2⟩
  cases o with
  | organized ok => cases ok <;> rfl
  | badTool => rfl
  | badPlatform => rfl
  | dlFail1 => rfl
  | dlFail2 => rfl
  | extractFail => rfl

/-- The boolean wrapper succeeds exactly when the instrumented run reports
a successful organize. -/
theorem download_setup_fst (cat : List ToolEntry) (env : Env) (tool : String) (st : St) :
    ((download_and_setup_tool cat env tool st).1 = true ↔
      (pipelineRun cat env tool st).1 = .organized true) := by
  unfold download_and_setup_tool
  rcases h : pipelineRun cat env tool st with ⟨o, st2⟩
  cases o with
  | organized ok => cases ok <;> simp
  | badTool => simp
  | badPlatform => simp
  | dlFail1 => simp
  | dlFail2 => simp
  | extractFail => simp

/-- The ledger record is written by the pipeline exactly on a successful
organize: every other terminal outcome leaves `version.json` unchanged, and
the successful outcome writes the catalog version, the current platform
name and the timestamp. -/
theorem pipelineRun_terminal (cat : List ToolEntry) (env : Env) (tool : String) (st : St) :
    ((pipelineRun cat env tool st).1 ≠ .organized true →
      (pipelineRun cat env tool st).2.tool.versionJson = st.tool.versionJson) ∧
    (∀ e, catFind cat tool = some e → (pipelineRun cat env tool st).1 = .organized true →
      (pipelineRun cat env tool st).2.tool.versionJson =
        some (e.version, get_platform env.sysPlatform, env.now)) ∧
    (∀ ok, (pipelineRun cat env tool st).1 = .organized ok →
      (pipelineRun cat env tool st).2.scratch = none ∧
      ∀ e url, catFind cat tool = some e →
        urlFor e (get_platform env.sysPlatform) = some url →
        tempGet (pipelineRun cat env tool st).2.temp
          (String.mk ((splitOnCharL '/' url.toList).getLastD [])) = none) := by
  simp only [pipelineRun]
  split
  · rename_i heq
    refine ⟨fun _ => rfl, ?_, ?_⟩
    · intro e he
      rw [heq] at he
      cases he
    · intro ok hc
      cases hc
  · rename_i entry heq
    split
    · rename_i hurl
      refine ⟨fun _ => rfl, ?_, ?_⟩
      · intro e _ hc
        cases hc
      · intro ok hc
        cases hc
    · rename_i url hurl
      generalize hd1 : download_file env url
        (String.mk ((splitOnCharL '/' url.toList).getLastD [])) 3 false
        { st with events := st.events ++ [("download", 0)], scratch := some [] } = p1
      have hp1 : p1.2.tool = st.tool := by
        rw [← hd1]
        exact download_file_tool env url _ 3 false _
      obtain ⟨r1, st1⟩ := p1
      dsimp only at hp1
      cases r1 with
      | none =>
        simp only [Option.isNone_none, reduceIte]
        refine ⟨fun _ => ?_, ?_, ?_⟩
        · rw [hp1]
        · intro e _ hc
          cases hc
        · intro ok hc
          cases hc
      | some a1 =>
        simp only [Option.isNone_some, Bool.false_eq_true, reduceIte]
        generalize hd2 : download_file env url
          (String.mk ((splitOnCharL '/' url.toList).getLastD [])) 3 false
          { st1 with events := st1.events ++ [("extract", 0)] } = p2
        have hp2 : p2.2.tool = st1.tool := by
          rw [← hd2]
          exact download_file_tool env url _ 3 false _
        obtain ⟨r2, st2⟩ := p2
        dsimp only at hp2
        cases r2 with
        | none =>
          dsimp only
          refine ⟨fun _ => ?_, ?_, ?_⟩
          · rw [hp2, hp1]
          · intro e _ hc
            cases hc
          · intro ok hc
            cases hc
        | some a2 =>
          dsimp only
          generalize he2 : extract_archive env a2 st2 = p3
          have hp3 : p3.2.tool = st2.tool := by
            rw [← he2]
            exact extract_archive_tool env a2 st2
          obtain ⟨exOk, st3⟩ := p3
          dsimp only at hp3
          cases exOk with
          | false =>
            dsimp only
            refine ⟨fun _ => ?_, ?_, ?_⟩
            · rw [hp3, hp2, hp1]
            · intro e _ hc
              cases hc
            · intro ok hc
              cases hc
          | true =>
            dsimp only
            generalize ho : organizeStep tool (get_platform env.sysPlatform)
              (st3.scratch.getD [])
              { st3 with events := st3.events ++ [("organize", 0)] } = p4
            have hp4 : p4.2.tool.versionJson = st3.tool.versionJson := by
              rw [← ho]
              exact organizeStep_versionJson tool (get_platform env.sysPlatform)
                (st3.scratch.getD []) { st3 with events := st3.events ++ [("organize", 0)] }
            obtain ⟨orgOk, st4⟩ := p4
            dsimp only at hp4
            cases orgOk with
            | false =>
              simp only [Bool.false_eq_true, reduceIte]
              refine ⟨fun _ => ?_, ?_, ?_⟩
              · rw [hp4, hp3, hp2, hp1]
              · intro e _ hc
                cases hc
              · intro ok _
                refine ⟨by trivial, ?_⟩
                intro e u he hu
                rw [heq] at he
                cases he
                rw [hurl] at hu
                cases hu
                exact tempGet_tempDel _ _
            | true =>
              simp only [reduceIte]
              refine ⟨fun hne => absurd rfl hne, ?_, ?_⟩
              · intro e he _
                rw [heq] at he
                cases he
                rfl
              · intro ok _
                refine ⟨by trivial, ?_⟩
                intro e u he hu
                rw [heq] at he
                cases he
                rw [hurl] at hu
                cases hu
                exact tempGet_tempDel _ _

/-- C5 as amended: the ledger record is written exactly when the normalize
step reports success — on success, `version.json` holds the catalog
version, the platform name and the timestamp, and on any failed install it
is left untouched — but normalize success does not guarantee that the
canonical entry point is on disk at record-write time: the counterexample
installs ffmpeg from an ffprobe-only archive and writes the record while
`bin/ffmpeg` is absent. -/
theorem C5_amended (cat : List ToolEntry) (env : Env) (tool : String) (st : St) :
    (∀ e, catFind cat tool = some e →
      (download_and_setup_tool cat env tool st).1 = true →
      (download_and_setup_tool cat env tool st).2.tool.versionJson =
        some (e.version, get_platform env.sysPlatform, env.now)) ∧
    ((download_and_setup_tool cat env tool st).1 = false →
      (download_and_setup_tool cat env tool st).2.tool.versionJson =
        st.tool.versionJson) := by
  have h := pipelineRun_terminal cat env tool st
  constructor
  · intro e he htrue
    rw [download_setup_snd]
    exact h.2.1 e he ((download_setup_fst cat env tool st).mp htrue)
  · intro hfalse
    rw [download_setup_snd]
    apply h.1
    intro hc
    rw [(download_setup_fst cat env tool st).mpr hc] at hfalse
    cases hfalse

/-- C5 amended, instantiated: a successful ffmpeg install writes the
versioned record; an install whose download raises a non-transient error
leaves the (absent) record untouched. -/
theorem C5_amended_witness :
    (download_and_setup_tool TOOL_VERSIONS envA "ffmpeg" st0).2.tool.versionJson =
      some ("7.0.2", "linux", "2026-01-01 00:00:00") ∧
    (download_and_setup_tool TOOL_VERSIONS envF "ffmpeg" st0).2.tool.versionJson =
      none := by
  constructor
  · exact (C5_amended TOOL_VERSIONS envA "ffmpeg" st0).1
      ⟨"ffmpeg", "7.0.2",
        [("windows", "https://github.com/BtbN/FFmpeg-Builds/releases/download/latest/ffmpeg-master-latest-win64-gpl.zip"),
         ("darwin", "https://evermeet.cx/ffmpeg/ffmpeg-7.0.2.zip"),
         ("linux", "https://johnvansickle.com/ffmpeg/releases/ffmpeg-release-amd64-static.tar.xz")]⟩
      rfl (by decide)
  · exact (C5_amended TOOL_VERSIONS envF "ffmpeg" st0).2 (by decide)

/-- C2 as amended: the artifact-delete and scratch-remove cleanup step runs
exactly on runs that reach the organize stage: whenever the pipeline
terminates through its final `return organize_success` line — successful or
failed organize alike — the downloaded artifact named by the URL has been
deleted from `temp/` and the scratch extraction directory has been removed.
Runs that fail at the download or extract stage return early and skip
cleanup (the counterexample leaves both the artifact and the scratch
directory behind). -/
theorem C2_amended (cat : List ToolEntry) (env : Env) (tool : String) (st : St)
    (ok : Bool) (e : ToolEntry) (url : String)
    (hout : (pipelineRun cat env tool st).1 = .organized ok)
    (he : catFind cat tool = some e)
    (hurl : urlFor e (get_platform env.sysPlatform) = some url) :
    (pipelineRun cat env tool st).2.scratch = none ∧
    tempGet (pipelineRun cat env tool st).2.temp
      (String.mk ((splitOnCharL '/' url.toList).getLastD [])) = none := by
  obtain ⟨hs, ht⟩ := (pipelineRun_terminal cat env tool st).2.2 ok hout
  exact ⟨hs, ht e url he hurl⟩

/-- C2 amended, instantiated: a successful ffmpeg install ends with the
scratch directory removed and the `.tar.xz` artifact deleted from
`temp/`. -/
theorem C2_amended_witness :
    (pipelineRun TOOL_VERSIONS envA "ffmpeg" st0).2.scratch = none ∧
    tempGet (pipelineRun TOOL_VERSIONS envA "ffmpeg" st0).2.temp
      "ffmpeg-release-amd64-static.tar.xz" = none := by
  exact C2_amended TOOL_VERSIONS envA "ffmpeg" st0 true
    ⟨"ffmpeg", "7.0.2",
      [("windows", "https://github.com/BtbN/FFmpeg-Builds/releases/download/latest/ffmpeg-master-latest-win64-gpl.zip"),
       ("darwin", "https://evermeet.cx/ffmpeg/ffmpeg-7.0.2.zip"),
       ("linux", "https://johnvansickle.com/ffmpeg/releases/ffmpeg-release-amd64-static.tar.xz")]⟩
    "https://johnvansickle.com/ffmpeg/releases/ffmpeg-release-amd64-static.tar.xz"
    (by decide) rfl rfl

end ToolDownloader
